import Mathlib

/-!
# Verification of the Thrive sound-source system

Shallow embedding of `src/sound/sound_source_system.h` (class `Sound`,
class `SoundSourceComponent`, class `SoundSourceSystem`) and proofs about
the claims of the specification.

Modelling conventions:

* C++ `float` fields (`volume`, `maxDistance`, `rolloffFactor`,
  `referenceDistance`) are modelled as `Int`.  The code never performs
  floating-point arithmetic on them: they are only copied between the
  component, the storage container and the native sound object, and all
  default values (`1.0f`, `-1.0f`, `100.0f`) are exact.  Any carrier with
  decidable equality is therefore a faithful model of these fields.
* `uint8_t priority` is modelled as `Nat`; it is likewise only copied.
* Raw pointers to native `OgreOggSound::OgreOggISound` objects are modelled
  as `Option Nat` (a native id, `none` = `nullptr`).
* `std::unordered_map` is modelled as an association list whose keys are
  unique; `emplace` inserts only when the key is absent, exactly as in C++.
-/

set_option autoImplicit false

namespace thrive

/-! ## Association-list helpers (model of `std::unordered_map`) -/

/-- First-match lookup in an association list (`unordered_map::find`). -/
def lookupA {κ α : Type} [DecidableEq κ] : List (κ × α) → κ → Option α
  | [], _ => none
  | (k, v) :: rest, key => if k = key then some v else lookupA rest key

/-- Map-style set: overwrite the entry if the key exists, append otherwise. -/
def setA {κ α : Type} [DecidableEq κ] : List (κ × α) → κ → α → List (κ × α)
  | [], key, v => [(key, v)]
  | (k, w) :: rest, key, v =>
    if k = key then (key, v) :: rest else (k, w) :: setA rest key v

/-- `unordered_map::emplace`: insert only when the key is absent. -/
def emplaceA {κ α : Type} [DecidableEq κ] (m : List (κ × α)) (key : κ) (v : α) :
    List (κ × α) :=
  if (lookupA m key).isSome then m else m ++ [(key, v)]

/-- `unordered_map::erase` of a key (removes the first matching entry). -/
def eraseA {κ α : Type} [DecidableEq κ] : List (κ × α) → κ → List (κ × α)
  | [], _ => []
  | (k, v) :: rest, key => if k = key then rest else (k, v) :: eraseA rest key

/-- The representation invariant of `unordered_map`: keys are unique. -/
def keysNodup {κ α : Type} (m : List (κ × α)) : Prop :=
  (m.map Prod.fst).Nodup

instance {κ α : Type} [DecidableEq κ] (m : List (κ × α)) :
    Decidable (keysNodup m) := by
  unfold keysNodup; infer_instance

/-! ## Storage (serialization)

Modelled from the spec: `StorageContainer` and `StorageList`
(`engine/serialization.h` is not part of the sources) are described as "a
key-value serialization format used for save/load of sound descriptors and
properties".  We model a container as a typed key-value association list;
`get<T>(key)` returns the stored value, or a default-constructed `T` when
the key is absent, and `get<T>(key, d)` returns `d` when the key is absent.
A `StorageList` is a list of containers. -/

/-- A typed value stored in a `StorageContainer`. -/
inductive SVal : Type where
  | vstr : String → SVal
  | vbool : Bool → SVal
  | vfloat : Int → SVal
  | vint16 : Int → SVal
  | vuint8 : Nat → SVal
  | vlist : List (List (String × SVal)) → SVal

/-- Modelled from the spec: a key-value storage container. -/
abbrev StorageContainer : Type := List (String × SVal)

/-- Modelled from the spec: a list of storage containers (`StorageList`). -/
abbrev StorageList : Type := List StorageContainer

/-- `StorageContainer::set` (map semantics: overwrite or insert). -/
def scSet (st : StorageContainer) (key : String) (v : SVal) : StorageContainer :=
  setA st key v

/-- `get<std::string>(key, d)`. -/
def scGetString (st : StorageContainer) (key : String) (d : String) : String :=
  match lookupA st key with
  | some (SVal.vstr v) => v
  | _ => d

/-- `get<bool>(key, d)`. -/
def scGetBool (st : StorageContainer) (key : String) (d : Bool) : Bool :=
  match lookupA st key with
  | some (SVal.vbool v) => v
  | _ => d

/-- `get<float>(key, d)`. -/
def scGetFloat (st : StorageContainer) (key : String) (d : Int) : Int :=
  match lookupA st key with
  | some (SVal.vfloat v) => v
  | _ => d

/-- `get<int16_t>(key, d)`. -/
def scGetInt16 (st : StorageContainer) (key : String) (d : Int) : Int :=
  match lookupA st key with
  | some (SVal.vint16 v) => v
  | _ => d

/-- `get<uint8_t>(key, d)`. -/
def scGetUint8 (st : StorageContainer) (key : String) (d : Nat) : Nat :=
  match lookupA st key with
  | some (SVal.vuint8 v) => v
  | _ => d

/-- `get<StorageList>(key, d)`. -/
def scGetList (st : StorageContainer) (key : String) (d : StorageList) :
    StorageList :=
  match lookupA st key with
  | some (SVal.vlist v) => v
  | _ => d

/-! ## `Sound` -/

/-- `Sound::PlayState`. -/
inductive PlayState : Type where
  | Play
  | Pause
  | Stop
deriving DecidableEq, Repr

/-- The numeric value of a `PlayState` (C++ enum values 0, 1, 2), as stored
via `storage.set<int16_t>("playState", ...)`. -/
def PlayState.toInt : PlayState → Int
  | PlayState.Play => 0
  | PlayState.Pause => 1
  | PlayState.Stop => 2

/-- `static_cast<PlayState>(i)` for the values written by this code. -/
def PlayState.ofInt (i : Int) : PlayState :=
  if i = 0 then PlayState.Play
  else if i = 1 then PlayState.Pause
  else PlayState.Stop

/-- `Sound::Properties`.  The base class `Touchable`
(`engine/touchable.h`, not part of the sources) is modelled from the spec
("a straightforward dirty-flag diff-and-sync loop") as the Boolean dirty
flag `touched`: `touch()` sets it, `untouch()` clears it and `hasChanges()`
reads it. -/
structure Properties : Type where
  playState : PlayState := PlayState.Stop
  loop : Bool := false
  volume : Int := 1
  maxDistance : Int := -1
  rolloffFactor : Int := -1
  referenceDistance : Int := 100
  priority : Nat := 0
  touched : Bool := false
deriving DecidableEq, Repr

/-- `Touchable::touch`. -/
def Properties.touch (p : Properties) : Properties :=
  { p with touched := true }

/-- `Touchable::untouch`. -/
def Properties.untouch (p : Properties) : Properties :=
  { p with touched := false }

/-- `Touchable::hasChanges`. -/
def Properties.hasChanges (p : Properties) : Bool :=
  p.touched

/-- Class `Sound`: a single sound descriptor.  `m_sound` is the pointer to
the native sound (`none` = `nullptr`). -/
structure Sound : Type where
  name : String
  filename : String
  props : Properties
  m_sound : Option Nat
deriving DecidableEq, Repr

/-- `Sound::Sound(name, filename)`. -/
def Sound.mkNew (name filename : String) : Sound :=
  { name := name, filename := filename, props := {}, m_sound := none }

/-- `Sound::Sound()`, the default constructor used for loading. -/
def soundDefault : Sound :=
  Sound.mkNew "" ""

/-- `Sound::play`. -/
def Sound.play (s : Sound) : Sound :=
  { s with props := Properties.touch { s.props with playState := PlayState.Play } }

/-- `Sound::pause`. -/
def Sound.pause (s : Sound) : Sound :=
  { s with props := Properties.touch { s.props with playState := PlayState.Pause } }

/-- `Sound::stop`. -/
def Sound.stop (s : Sound) : Sound :=
  { s with props := Properties.touch { s.props with playState := PlayState.Stop } }

/-- `Sound::storage`. -/
def Sound.storage (s : Sound) : StorageContainer :=
  let st : StorageContainer := []
  let st := scSet st "filename" (SVal.vstr s.filename)
  let st := scSet st "name" (SVal.vstr s.name)
  let st := scSet st "playState" (SVal.vint16 s.props.playState.toInt)
  let st := scSet st "loop" (SVal.vbool s.props.loop)
  let st := scSet st "volume" (SVal.vfloat s.props.volume)
  let st := scSet st "maxDistance" (SVal.vfloat s.props.maxDistance)
  let st := scSet st "rolloffFactor" (SVal.vfloat s.props.rolloffFactor)
  let st := scSet st "referenceDistance" (SVal.vfloat s.props.referenceDistance)
  let st := scSet st "priority" (SVal.vuint8 s.props.priority)
  st

/-- `Sound::load` (mutates `this`, so it takes and returns the sound). -/
def Sound.load (s : Sound) (st : StorageContainer) : Sound :=
  { s with
    filename := scGetString st "filename" ""
    name := scGetString st "name" ""
    props := { s.props with
      playState := PlayState.ofInt (scGetInt16 st "playState" PlayState.Stop.toInt)
      loop := scGetBool st "loop" false
      volume := scGetFloat st "volume" 0
      maxDistance := scGetFloat st "maxDistance" (-1)
      rolloffFactor := scGetFloat st "rolloffFactor" (-1)
      referenceDistance := scGetFloat st "referenceDistance" 100
      priority := scGetUint8 st "priority" 0 } }

/-! ## `SoundSourceComponent` -/

/-- `TouchableValue<bool>` (`engine/touchable.h`, not in the sources),
modelled from the spec as a value with a dirty flag; assignment sets the
value and marks it changed. -/
structure TouchableValue : Type where
  value : Bool
  touched : Bool
deriving DecidableEq, Repr

/-- `TouchableValue::operator=`. -/
def TouchableValue.setV (_t : TouchableValue) (v : Bool) : TouchableValue :=
  { value := v, touched := true }

/-- Class `SoundSourceComponent`.  `m_addedSounds` / `m_removedSounds` are
the queues of sounds pending native creation / destruction; the C++ lists
hold `Sound*` pointers, modelled here by the pointed-to descriptors. -/
structure SoundSourceComponent : Type where
  m_relativeToListener : TouchableValue := { value := true, touched := true }
  m_addedSounds : List Sound := []
  m_removedSounds : List Sound := []
  m_sounds : List (String × Sound) := []
deriving DecidableEq, Repr

/-- A freshly constructed component. -/
def compDefault : SoundSourceComponent := {}

/-- `SoundSourceComponent::addSound`.  Returns the raw pointer to the newly
constructed sound (modelled by its value) together with the updated
component.  Note that `m_sounds.emplace` does not insert when the name is
already present, exactly as `std::unordered_map::emplace`. -/
def SoundSourceComponent.addSound (c : SoundSourceComponent)
    (name filename : String) : Sound × SoundSourceComponent :=
  let sound := Sound.mkNew name filename
  (sound,
    { c with
      m_sounds := emplaceA c.m_sounds name sound
      m_addedSounds := c.m_addedSounds ++ [sound] })

/-- `SoundSourceComponent::removeSound`. -/
def SoundSourceComponent.removeSound (c : SoundSourceComponent)
    (name : String) : SoundSourceComponent :=
  match lookupA c.m_sounds name with
  | none => c
  | some s =>
    { c with
      m_removedSounds := c.m_removedSounds ++ [s]
      m_sounds := eraseA c.m_sounds name }

/-- `SoundSourceComponent::storage`.  `Component::storage()` (base class,
not in the sources) is modelled as an empty container.  Faithful to the
source: the `sounds` StorageList is built from every owned sound but is
never stored into the container (`storage.set("sounds", sounds)` is
missing in the C++). -/
def SoundSourceComponent.storage (c : SoundSourceComponent) : StorageContainer :=
  let st : StorageContainer := []
  let st := scSet st "relativeToListener" (SVal.vbool c.m_relativeToListener.value)
  let _sounds : StorageList := c.m_sounds.map (fun p => Sound.storage p.2)
  st

/-- `SoundSourceComponent::load` (mutates `this`). -/
def SoundSourceComponent.load (c : SoundSourceComponent)
    (st : StorageContainer) : SoundSourceComponent :=
  let c :=
    { c with
      m_relativeToListener :=
        c.m_relativeToListener.setV (scGetBool st "relativeToListener" false) }
  let sounds := scGetList st "sounds" []
  sounds.foldl
    (fun comp soundStorage =>
      let sound := Sound.load soundDefault soundStorage
      { comp with m_sounds := emplaceA comp.m_sounds sound.name sound })
    c

/-! ## `SoundSourceSystem`

The system mirrors component state against the third-party sound engine
(`OgreOggSound`) and scene graph (Ogre).  The third-party side is modelled
as a trace of external API calls plus an oracle `create` deciding whether
`OgreOggSoundManager::createSound` succeeds; successful creations allocate
fresh native ids.

Modelled from the spec (code of this repository not under `src/`):

* `OgreSceneNodeComponent` (`ogre/scene_node_system.h`): only its
  `m_sceneNode` pointer is used here, modelled as `Option Nat`
  (spec: "a null check guards against a missing scene node").
* `EntityFilter` (`engine/entity_filter.h`): the spec's "detect
  added/removed entities" loop, modelled as the lists `addedIds` /
  `removedIds` of entity ids pending since the last update, cleared by
  `clearChanges()`; the tracked entities themselves are the component
  store `entities`. -/

/-- Entity ids (`EntityId`). -/
abbrev EntityId : Type := Nat

/-- Native sound ids, standing for `OgreOggSound::OgreOggISound*`. -/
abbrev NativeId : Type := Nat

/-- `OgreSceneNodeComponent`, reduced to its scene-node pointer. -/
structure OgreSceneNodeComponent : Type where
  m_sceneNode : Option Nat
deriving DecidableEq, Repr

/-- One call into the third-party sound / scene-graph API. -/
inductive ApiCall : Type where
  | createSound (name filename : String) (stream loops prebuffer : Bool)
      (result : Option NativeId)
  | destroySound (id : NativeId)
  | detachObject (id : NativeId)
  | attachObject (sceneNode : Nat) (id : NativeId)
  | setVolume (id : NativeId) (v : Int)
  | setMaxDistance (id : NativeId) (v : Int)
  | setRolloffFactor (id : NativeId) (v : Int)
  | setReferenceDistance (id : NativeId) (v : Int)
  | setPriority (id : NativeId) (v : Nat)
  | playSound (id : NativeId)
  | pauseSound (id : NativeId)
  | stopSound (id : NativeId)
deriving DecidableEq, Repr

/-- The mutable state of `SoundSourceSystem::Implementation` together with
the observable effects on the external world: `implSounds` is
`Implementation::m_sounds` (entity id → name → native sound), `nextId` the
allocator for fresh native ids, `calls` the trace of external API calls,
`console` the `std::cout` output and `errors` the recorded errors (nothing
in this system ever records one). -/
structure Ctx : Type where
  implSounds : List (EntityId × List (String × NativeId)) := []
  nextId : NativeId := 0
  calls : List ApiCall := []
  console : List String := []
  errors : List String := []
deriving DecidableEq, Repr

/-- Append external API calls to the trace. -/
def Ctx.emit (ctx : Ctx) (cs : List ApiCall) : Ctx :=
  { ctx with calls := ctx.calls ++ cs }

/-- `Implementation::m_sounds[entityId]` followed by `.emplace(name, s)`:
`operator[]` default-constructs the inner map when absent, and `emplace`
inserts only when the name is absent. -/
def implEmplace (m : List (EntityId × List (String × NativeId)))
    (eid : EntityId) (name : String) (id : NativeId) :
    List (EntityId × List (String × NativeId)) :=
  match lookupA m eid with
  | none => m ++ [(eid, emplaceA ([] : List (String × NativeId)) name id)]
  | some inner => setA m eid (emplaceA inner name id)

/-- `Implementation::m_sounds[entityId]` alone (`operator[]` inserts an
empty inner map when the entity has none). -/
def implEnsure (m : List (EntityId × List (String × NativeId)))
    (eid : EntityId) : List (EntityId × List (String × NativeId)) :=
  match lookupA m eid with
  | none => m ++ [(eid, [])]
  | some _ => m

/-- `Implementation::restoreSound`.  Returns the possibly updated sound
descriptor (the C++ mutates it through the pointer) and the updated
context.  `create` is the oracle for `OgreOggSoundManager::createSound`. -/
def restoreSound (create : String → String → Bool) (entityId : EntityId)
    (sceneNodeComponent : OgreSceneNodeComponent) (sound : Sound)
    (ctx : Ctx) : Sound × Ctx :=
  match sceneNodeComponent.m_sceneNode with
  | none => (sound, ctx)
  | some node =>
    let ctx := { ctx with
      console := ctx.console ++ ["Looping: " ++ toString sound.props.loop] }
    if create sound.name sound.filename then
      let id := ctx.nextId
      let ctx := { ctx with nextId := ctx.nextId + 1 }
      let ctx := ctx.emit
        [ApiCall.createSound sound.name sound.filename true sound.props.loop true
          (some id)]
      let sound := { sound with m_sound := some id }
      let ctx := { ctx with implSounds := implEmplace ctx.implSounds entityId sound.name id }
      let ctx := ctx.emit [ApiCall.attachObject node id]
      (sound, ctx)
    else
      let ctx := ctx.emit
        [ApiCall.createSound sound.name sound.filename true sound.props.loop true none]
      (sound, ctx)

/-- `Implementation::removeSound`: detach the native sound from its parent
scene node and destroy it (no-op on a null pointer). -/
def removeSoundNative (sound : Option NativeId) (ctx : Ctx) : Ctx :=
  match sound with
  | none => ctx
  | some id => ctx.emit [ApiCall.detachObject id, ApiCall.destroySound id]

/-- `Implementation::removeSoundsForEntity`: destroy every native sound
recorded for the entity.  Faithful to the source, the entity's entry in
`m_sounds` is not erased (and `operator[]` creates an empty one if
absent). -/
def removeSoundsForEntity (eid : EntityId) (ctx : Ctx) : Ctx :=
  let inner := (lookupA ctx.implSounds eid).getD []
  let ctx := { ctx with implSounds := implEnsure ctx.implSounds eid }
  inner.foldl (fun c p => removeSoundNative (some p.2) c) ctx

/-- The first phase of `update`: destroy the native sounds of every removed
entity. -/
def destroyPhase : List EntityId → Ctx → Ctx
  | [], ctx => ctx
  | eid :: rest, ctx => destroyPhase rest (removeSoundsForEntity eid ctx)

/-- Restore every sound of a component (the loop body of the added-entities
phase and of `restoreAllSounds`). -/
def restoreSounds (create : String → String → Bool) (eid : EntityId)
    (scn : OgreSceneNodeComponent) :
    List (String × Sound) → Ctx → List (String × Sound) × Ctx
  | [], ctx => ([], ctx)
  | (n, s) :: rest, ctx =>
    let (s', ctx') := restoreSound create eid scn s ctx
    let (rest', ctx'') := restoreSounds create eid scn rest ctx'
    ((n, s') :: rest', ctx'')

/-- The tracked-entity store: entity id → (scene-node component,
sound-source component).  Added entities alias entries of this store, as
the filter hands out component pointers. -/
abbrev EntityStore : Type :=
  List (EntityId × (OgreSceneNodeComponent × SoundSourceComponent))

/-- Replace the value stored at an entity id (no insertion). -/
def replaceAt {α : Type} : List (Nat × α) → Nat → α → List (Nat × α)
  | [], _, _ => []
  | (k, w) :: rest, key, v =>
    if k = key then (key, v) :: rest else (k, w) :: replaceAt rest key v

/-- The second phase of `update`: restore every sound of every entity newly
added to the filter.  The added entities are looked up in the store because
the C++ loop mutates the very components the main loop then iterates. -/
def addedPhase (create : String → String → Bool) :
    List EntityId → EntityStore → Ctx → EntityStore × Ctx
  | [], ents, ctx => (ents, ctx)
  | eid :: rest, ents, ctx =>
    match lookupA ents eid with
    | none => addedPhase create rest ents ctx
    | some (scn, comp) =>
      let (sounds', ctx') := restoreSounds create eid scn comp.m_sounds ctx
      addedPhase create rest
        (replaceAt ents eid (scn, { comp with m_sounds := sounds' })) ctx'

/-- The play/pause/stop call issued by the `switch` on `playState`. -/
def playCall : PlayState → NativeId → ApiCall
  | PlayState.Play, id => ApiCall.playSound id
  | PlayState.Pause, id => ApiCall.pauseSound id
  | PlayState.Stop, id => ApiCall.stopSound id

/-- The property-sync calls pushed for a dirty sound with native id `id`. -/
def syncCalls (id : NativeId) (p : Properties) : List ApiCall :=
  [ApiCall.setVolume id p.volume,
   ApiCall.setMaxDistance id p.maxDistance,
   ApiCall.setRolloffFactor id p.rolloffFactor,
   ApiCall.setReferenceDistance id p.referenceDistance,
   ApiCall.setPriority id p.priority,
   playCall p.playState id]

/-- The body of the main loop of `update` for one sound: restore it when it
has no native sound yet, then, when its properties have pending changes,
push them to the native sound and clear the dirty flag.  The dereference of
`sound->m_sound` is modelled by `Except`: `.error ()` is the null-pointer
dereference. -/
def syncSound (create : String → String → Bool) (eid : EntityId)
    (scn : OgreSceneNodeComponent) (sound : Sound) (ctx : Ctx) :
    Except Unit (Sound × Ctx) :=
  let sc :=
    if sound.m_sound.isNone then restoreSound create eid scn sound ctx
    else (sound, ctx)
  let sound := sc.1
  let ctx := sc.2
  if sound.props.hasChanges then
    match sound.m_sound with
    | none => Except.error ()
    | some id =>
      let ctx := ctx.emit (syncCalls id sound.props)
      Except.ok ({ sound with props := sound.props.untouch }, ctx)
  else
    Except.ok (sound, ctx)

/-- The main loop of `update` over the sounds of one component. -/
def syncSounds (create : String → String → Bool) (eid : EntityId)
    (scn : OgreSceneNodeComponent) :
    List (String × Sound) → Ctx → Except Unit (List (String × Sound) × Ctx)
  | [], ctx => Except.ok ([], ctx)
  | (n, s) :: rest, ctx =>
    match syncSound create eid scn s ctx with
    | Except.error e => Except.error e
    | Except.ok (s', ctx') =>
      match syncSounds create eid scn rest ctx' with
      | Except.error e => Except.error e
      | Except.ok (rest', ctx'') => Except.ok ((n, s') :: rest', ctx'')

/-- The main loop of `update` over all tracked entities. -/
def syncEntities (create : String → String → Bool) :
    EntityStore → Ctx → Except Unit (EntityStore × Ctx)
  | [], ctx => Except.ok ([], ctx)
  | (eid, (scn, comp)) :: rest, ctx =>
    match syncSounds create eid scn comp.m_sounds ctx with
    | Except.error e => Except.error e
    | Except.ok (sounds', ctx') =>
      match syncEntities create rest ctx' with
      | Except.error e => Except.error e
      | Except.ok (rest', ctx'') =>
        Except.ok ((eid, (scn, { comp with m_sounds := sounds' })) :: rest', ctx'')

/-- The whole state `SoundSourceSystem::update` acts on. -/
structure World : Type where
  entities : EntityStore := []
  addedIds : List EntityId := []
  removedIds : List EntityId := []
  ctx : Ctx := {}
deriving DecidableEq, Repr

/-- `SoundSourceSystem::update`: destroy the native sounds of removed
entities, restore the sounds of added entities, clear the filter's change
lists, then sync property changes of all tracked entities.  `.error ()` is
the null-pointer dereference of `sound->m_sound` in the `hasChanges`
branch. -/
def update (create : String → String → Bool) (w : World) :
    Except Unit World :=
  let ctx1 := destroyPhase w.removedIds w.ctx
  let ec := addedPhase create w.addedIds w.entities ctx1
  match syncEntities create ec.1 ec.2 with
  | Except.error e => Except.error e
  | Except.ok (ents', ctx') =>
    Except.ok { entities := ents', addedIds := [], removedIds := [], ctx := ctx' }

/-! ## Association-list lemmas -/

theorem lookupA_eq_none_of_not_mem {κ α : Type} [DecidableEq κ]
    (m : List (κ × α)) (k : κ) (h : k ∉ m.map Prod.fst) :
    lookupA m k = none := by
  induction m with
  | nil => rfl
  | cons p rest ih =>
    obtain ⟨k', v⟩ := p
    simp only [List.map_cons, List.mem_cons] at h
    push_neg at h
    have hne : ¬ (k' = k) := fun e => h.1 e.symm
    simp only [lookupA, if_neg hne]
    exact ih h.2

theorem lookupA_isSome_iff_mem {κ α : Type} [DecidableEq κ]
    (m : List (κ × α)) (k : κ) :
    (lookupA m k).isSome = true ↔ k ∈ m.map Prod.fst := by
  induction m with
  | nil => simp [lookupA]
  | cons p rest ih =>
    obtain ⟨k', v⟩ := p
    by_cases e : k' = k
    · subst e; simp [lookupA]
    · simp only [lookupA, if_neg e, List.map_cons, List.mem_cons]
      rw [ih]
      constructor
      · exact fun h => Or.inr h
      · rintro (h | h)
        · exact absurd h.symm e
        · exact h

theorem lookupA_eraseA_ne {κ α : Type} [DecidableEq κ]
    (m : List (κ × α)) (k k' : κ) (h : k' ≠ k) :
    lookupA (eraseA m k) k' = lookupA m k' := by
  induction m with
  | nil => rfl
  | cons p rest ih =>
    obtain ⟨k₀, v⟩ := p
    by_cases e : k₀ = k
    · subst e
      have hne : ¬ (k₀ = k') := fun e' => h e'.symm
      simp only [eraseA, if_pos rfl, lookupA, if_neg hne, if_true]
    · simp only [eraseA, if_neg e, lookupA]
      by_cases e' : k₀ = k'
      · simp only [if_pos e']
      · simp only [if_neg e']
        exact ih

theorem eraseA_sublist {κ α : Type} [DecidableEq κ]
    (m : List (κ × α)) (k : κ) : (eraseA m k).Sublist m := by
  induction m with
  | nil => exact List.Sublist.refl _
  | cons p rest ih =>
    obtain ⟨k₀, v⟩ := p
    by_cases e : k₀ = k
    · simp only [eraseA, if_pos e]
      exact (List.Sublist.refl _).cons _
    · simp only [eraseA, if_neg e]
      exact ih.cons₂ _

theorem lookupA_eraseA_self {κ α : Type} [DecidableEq κ]
    (m : List (κ × α)) (k : κ) (h : keysNodup m) :
    lookupA (eraseA m k) k = none := by
  induction m with
  | nil => rfl
  | cons p rest ih =>
    obtain ⟨k₀, v⟩ := p
    have hrest : keysNodup rest := (List.nodup_cons.mp h).2
    by_cases e : k₀ = k
    · subst e
      simp only [eraseA, if_pos rfl]
      exact lookupA_eq_none_of_not_mem rest k₀ (List.nodup_cons.mp h).1
    · simp only [eraseA, if_neg e, lookupA, if_neg e]
      exact ih hrest

theorem eraseA_length {κ α : Type} [DecidableEq κ]
    (m : List (κ × α)) (k : κ) (h : (lookupA m k).isSome = true) :
    (eraseA m k).length + 1 = m.length := by
  induction m with
  | nil => simp [lookupA] at h
  | cons p rest ih =>
    obtain ⟨k₀, v⟩ := p
    by_cases e : k₀ = k
    · simp [eraseA, if_pos e]
    · simp only [lookupA, if_neg e] at h
      simp only [eraseA, if_neg e, List.length_cons]
      rw [← ih h]

theorem keysNodup_emplaceA {κ α : Type} [DecidableEq κ]
    (m : List (κ × α)) (k : κ) (v : α) (h : keysNodup m) :
    keysNodup (emplaceA m k v) := by
  unfold emplaceA
  by_cases hs : (lookupA m k).isSome = true
  · simp [hs, h]
  · simp only [hs, if_false, Bool.false_eq_true]
    unfold keysNodup
    rw [List.map_append]
    rw [List.nodup_append]
    refine ⟨h, List.nodup_singleton _, ?_⟩
    intro a ha hb
    simp only [List.map_cons, List.map_nil, List.mem_singleton] at hb
    subst hb
    exact hs (((lookupA_isSome_iff_mem m a).mpr ha))

theorem keysNodup_eraseA {κ α : Type} [DecidableEq κ]
    (m : List (κ × α)) (k : κ) (h : keysNodup m) :
    keysNodup (eraseA m k) :=
  h.sublist ((eraseA_sublist m k).map Prod.fst)

theorem lookupA_emplaceA_self {κ α : Type} [DecidableEq κ]
    (m : List (κ × α)) (k : κ) (v : α) (h : lookupA m k = none) :
    lookupA (emplaceA m k v) k = some v := by
  unfold emplaceA
  rw [h]
  simp only [Option.isSome_none, Bool.false_eq_true, if_false]
  induction m with
  | nil => simp [lookupA]
  | cons p rest ih =>
    obtain ⟨k₀, w⟩ := p
    simp only [lookupA] at h
    by_cases e : k₀ = k
    · rw [if_pos e] at h; cases h
    · rw [if_neg e] at h
      simp only [List.cons_append, lookupA, if_neg e]
      exact ih h

/-! ## Claim theorems: `Sound` and `SoundSourceComponent` -/

/-- C9: `play()` sets `playState` to `Play`, `pause()` to `Pause` and
`stop()` to `Stop`; each marks the properties as changed (`hasChanges()`
becomes true) and leaves the name, filename and every other property field
unchanged (stated as full record equalities). -/
theorem C9_play_pause_stop (s : Sound) :
    s.play = { s with props := { s.props with
        playState := PlayState.Play, touched := true } } ∧
    s.pause = { s with props := { s.props with
        playState := PlayState.Pause, touched := true } } ∧
    s.stop = { s with props := { s.props with
        playState := PlayState.Stop, touched := true } } ∧
    s.play.props.hasChanges = true ∧
    s.pause.props.hasChanges = true ∧
    s.stop.props.hasChanges = true :=
  ⟨rfl, rfl, rfl, rfl, rfl, rfl⟩

/-- C7: loading a default-constructed `Sound` from the container produced
by `storage()` restores name, filename, playState, loop, volume,
maxDistance, rolloffFactor, referenceDistance and priority. -/
theorem C7_sound_roundtrip (s : Sound) :
    (soundDefault.load s.storage).name = s.name ∧
    (soundDefault.load s.storage).filename = s.filename ∧
    (soundDefault.load s.storage).props.playState = s.props.playState ∧
    (soundDefault.load s.storage).props.loop = s.props.loop ∧
    (soundDefault.load s.storage).props.volume = s.props.volume ∧
    (soundDefault.load s.storage).props.maxDistance = s.props.maxDistance ∧
    (soundDefault.load s.storage).props.rolloffFactor = s.props.rolloffFactor ∧
    (soundDefault.load s.storage).props.referenceDistance = s.props.referenceDistance ∧
    (soundDefault.load s.storage).props.priority = s.props.priority := by
  obtain ⟨n, f, ⟨ps, lp, v, md, rf, rd, pr, t⟩, ms⟩ := s
  cases ps <;> exact ⟨rfl, rfl, rfl, rfl, rfl, rfl, rfl, rfl, rfl⟩

/-- C1 (code bug): `SoundSourceComponent::storage` builds the `sounds`
StorageList but never stores it into the container, so loading a fresh
component from `storage()` restores `relativeToListener` but always yields
an empty sound collection — even for the concrete component that owns the
sound ("a", "f"). -/
theorem C1_storage_drops_sounds :
    (∀ c : SoundSourceComponent,
      (compDefault.load c.storage).m_sounds = [] ∧
      (compDefault.load c.storage).m_relativeToListener.value
        = c.m_relativeToListener.value) ∧
    ((compDefault.addSound "a" "f").2).m_sounds = [("a", Sound.mkNew "a" "f")] :=
  ⟨fun _ => ⟨rfl, rfl⟩, rfl⟩

theorem removeSound_absent (c : SoundSourceComponent) (name : String)
    (h : lookupA c.m_sounds name = none) :
    c.removeSound name = c := by
  unfold SoundSourceComponent.removeSound
  rw [h]

theorem removeSound_present (c : SoundSourceComponent) (name : String)
    (s : Sound) (hs : lookupA c.m_sounds name = some s) :
    c.removeSound name =
      { c with
        m_removedSounds := c.m_removedSounds ++ [s]
        m_sounds := eraseA c.m_sounds name } := by
  unfold SoundSourceComponent.removeSound
  rw [hs]

/-- C10: `removeSound` with an absent name leaves the component completely
unchanged; with a present name it removes exactly that one sound (the name
is gone, every other name still maps to the same sound, the collection
shrinks by one) and queues exactly that sound for native destruction,
leaving the added-sounds queue and the listener flag untouched. -/
theorem C10_removeSound (c : SoundSourceComponent) (name : String) :
    (lookupA c.m_sounds name = none → c.removeSound name = c) ∧
    (∀ s, lookupA c.m_sounds name = some s → keysNodup c.m_sounds →
      lookupA (c.removeSound name).m_sounds name = none ∧
      (∀ k, k ≠ name →
        lookupA (c.removeSound name).m_sounds k = lookupA c.m_sounds k) ∧
      (c.removeSound name).m_sounds.length + 1 = c.m_sounds.length ∧
      (c.removeSound name).m_removedSounds = c.m_removedSounds ++ [s] ∧
      (c.removeSound name).m_addedSounds = c.m_addedSounds ∧
      (c.removeSound name).m_relativeToListener = c.m_relativeToListener) := by
  constructor
  · intro h
    exact removeSound_absent c name h
  · intro s hs hnd
    rw [removeSound_present c name s hs]
    exact ⟨lookupA_eraseA_self _ _ hnd,
      fun k hk => lookupA_eraseA_ne _ _ _ hk,
      eraseA_length _ _ (by rw [hs]; rfl), rfl, rfl, rfl⟩

/-- Concrete component owning exactly the sound ("a", "f"), used as the
removal witness. -/
def c10comp : SoundSourceComponent := (compDefault.addSound "a" "f").2

theorem C10_removeSound_witness :
    lookupA c10comp.m_sounds "a" = some (Sound.mkNew "a" "f") ∧
    keysNodup c10comp.m_sounds ∧
    lookupA (c10comp.removeSound "a").m_sounds "a" = none ∧
    (c10comp.removeSound "a").m_removedSounds
      = c10comp.m_removedSounds ++ [Sound.mkNew "a" "f"] ∧
    (lookupA compDefault.m_sounds "b" = none → compDefault.removeSound "b" = compDefault) :=
  ⟨rfl, by decide,
    ((C10_removeSound c10comp "a").2 (Sound.mkNew "a" "f") rfl (by decide)).1,
    ((C10_removeSound c10comp "a").2 (Sound.mkNew "a" "f") rfl (by decide)).2.2.2.1,
    (C10_removeSound compDefault "b").1⟩

/-- Component that already owns a sound named "a" (with filename "f1"),
used to refute the returned-pointer clause of C3. -/
def c3pre : SoundSourceComponent := (compDefault.addSound "a" "f1").2

/-- C3 (counterexample): on a component already owning a sound named "a",
`addSound("a", "f2")` returns a pointer to the new sound, but the component
still owns the old sound under "a" (`unordered_map::emplace` does not
insert); the returned pointer therefore does not refer to a sound the
component owns under that name. -/
theorem C3_addSound_counterexample :
    lookupA ((c3pre.addSound "a" "f2").2).m_sounds "a"
      ≠ some (c3pre.addSound "a" "f2").1 := by
  decide

/-- C3 (amended): `addSound`, `removeSound` and `load` all preserve the
per-entity name-uniqueness invariant, and — provided no sound named `n` is
already owned — the pointer returned by `addSound(n, f)` refers to the
sound the component now owns under `n`. -/
theorem C3_name_uniqueness (c : SoundSourceComponent) (n f nm : String)
    (st : StorageContainer) (h : keysNodup c.m_sounds) :
    keysNodup ((c.addSound n f).2).m_sounds ∧
    keysNodup ((c.removeSound nm).m_sounds) ∧
    keysNodup ((c.load st).m_sounds) ∧
    (lookupA c.m_sounds n = none →
      lookupA ((c.addSound n f).2).m_sounds n = some (c.addSound n f).1) := by
  refine ⟨keysNodup_emplaceA _ _ _ h, ?_, ?_, ?_⟩
  · unfold SoundSourceComponent.removeSound
    cases hl : lookupA c.m_sounds nm with
    | none => exact h
    | some s => exact keysNodup_eraseA _ _ h
  · unfold SoundSourceComponent.load
    have hgen : ∀ (l : StorageList) (c' : SoundSourceComponent),
        keysNodup c'.m_sounds →
        keysNodup ((l.foldl
          (fun comp soundStorage =>
            let sound := Sound.load soundDefault soundStorage
            { comp with m_sounds := emplaceA comp.m_sounds sound.name sound })
          c').m_sounds) := by
      intro l
      induction l with
      | nil => exact fun c' h' => h'
      | cons ss rest ih =>
        intro c' h'
        exact ih _ (keysNodup_emplaceA _ _ _ h')
    exact hgen _ _ h
  · intro hn
    exact lookupA_emplaceA_self _ _ _ hn

theorem C3_name_uniqueness_witness :
    keysNodup c3pre.m_sounds ∧
    keysNodup ((c3pre.addSound "b" "f2").2).m_sounds ∧
    lookupA c3pre.m_sounds "b" = none ∧
    lookupA ((c3pre.addSound "b" "f2").2).m_sounds "b"
      = some (c3pre.addSound "b" "f2").1 :=
  ⟨by decide,
    (C3_name_uniqueness c3pre "b" "f2" "x" [] (by decide)).1,
    rfl,
    (C3_name_uniqueness c3pre "b" "f2" "x" [] (by decide)).2.2.2 rfl⟩

/-! ## Claim theorems: `SoundSourceSystem` -/

/-- C4: when the entity's `OgreSceneNodeComponent` holds a null scene node,
`restoreSound` returns without creating a native sound, attaching anything,
or modifying the sound descriptor or the entity-to-native-sound map: the
descriptor and the whole context come back unchanged. -/
theorem C4_null_scene_node_guard (create : String → String → Bool)
    (eid : EntityId) (scn : OgreSceneNodeComponent) (sound : Sound)
    (ctx : Ctx) (h : scn.m_sceneNode = none) :
    restoreSound create eid scn sound ctx = (sound, ctx) := by
  obtain ⟨sn⟩ := scn
  cases h
  rfl

theorem C4_null_scene_node_guard_witness :
    restoreSound (fun _ _ => true) 0 ⟨none⟩ soundDefault {} = (soundDefault, ({} : Ctx)) :=
  C4_null_scene_node_guard (fun _ _ => true) 0 ⟨none⟩ soundDefault {} rfl

/-- C5: when `createSound` returns null inside `restoreSound`, the failure
is silent: no error is recorded, the descriptor (hence its `m_sound`
pointer) is unchanged, the entity-to-native-sound map is unchanged, and the
only external call made is the failed creation itself (in particular
nothing is attached to the scene node). -/
theorem C5_silent_creation_failure (create : String → String → Bool)
    (eid : EntityId) (scn : OgreSceneNodeComponent) (sound : Sound)
    (ctx : Ctx) (node : Nat) (h1 : scn.m_sceneNode = some node)
    (h2 : create sound.name sound.filename = false) :
    (restoreSound create eid scn sound ctx).1 = sound ∧
    (restoreSound create eid scn sound ctx).2.implSounds = ctx.implSounds ∧
    (restoreSound create eid scn sound ctx).2.errors = ctx.errors ∧
    (restoreSound create eid scn sound ctx).2.calls = ctx.calls ++
      [ApiCall.createSound sound.name sound.filename true sound.props.loop true none] := by
  obtain ⟨sn⟩ := scn
  cases h1
  simp [restoreSound, h2, Ctx.emit]

theorem C5_silent_creation_failure_witness :
    (restoreSound (fun _ _ => false) 0 ⟨some 7⟩ (Sound.mkNew "a" "f") {}).1
      = Sound.mkNew "a" "f" ∧
    (restoreSound (fun _ _ => false) 0 ⟨some 7⟩ (Sound.mkNew "a" "f") {}).2.implSounds = [] ∧
    (restoreSound (fun _ _ => false) 0 ⟨some 7⟩ (Sound.mkNew "a" "f") {}).2.errors = [] ∧
    (restoreSound (fun _ _ => false) 0 ⟨some 7⟩ (Sound.mkNew "a" "f") {}).2.calls =
      [] ++ [ApiCall.createSound "a" "f" true false true none] :=
  C5_silent_creation_failure (fun _ _ => false) 0 ⟨some 7⟩ (Sound.mkNew "a" "f") {} 7
    rfl rfl

/-! ## Trace classification and phase lemmas for `update` -/

/-- Calls made while destroying native sounds. -/
def isDestroyCall : ApiCall → Bool
  | ApiCall.destroySound _ => true
  | ApiCall.detachObject _ => true
  | _ => false

/-- Calls made while restoring (creating and attaching) native sounds. -/
def isRestoreCall : ApiCall → Bool
  | ApiCall.createSound _ _ _ _ _ _ => true
  | ApiCall.attachObject _ _ => true
  | _ => false

theorem removeSoundNative_implSounds (s : Option NativeId) (ctx : Ctx) :
    (removeSoundNative s ctx).implSounds = ctx.implSounds := by
  cases s <;> rfl

theorem removeFold_implSounds (inner : List (String × NativeId)) (ctx : Ctx) :
    (inner.foldl (fun c p => removeSoundNative (some p.2) c) ctx).implSounds
      = ctx.implSounds := by
  induction inner generalizing ctx with
  | nil => rfl
  | cons p rest ih => rw [List.foldl_cons, ih, removeSoundNative_implSounds]

theorem implEnsure_getD (m : List (EntityId × List (String × NativeId)))
    (eid e : EntityId) :
    (lookupA (implEnsure m eid) e).getD [] = (lookupA m e).getD [] := by
  unfold implEnsure
  cases hl : lookupA m eid with
  | some inner => rfl
  | none =>
    induction m with
    | nil =>
      simp only [List.nil_append, lookupA]
      by_cases e' : eid = e
      · simp [if_pos e']
      · simp [if_neg e']
    | cons q rest ih =>
      obtain ⟨k, v⟩ := q
      simp only [lookupA] at hl
      by_cases e' : k = eid
      · rw [if_pos e'] at hl; cases hl
      · rw [if_neg e'] at hl
        simp only [List.cons_append, lookupA]
        by_cases e'' : k = e
        · simp [if_pos e'']
        · simp only [if_neg e'']
          exact ih hl

theorem removeSoundsForEntity_getD (eid e : EntityId) (ctx : Ctx) :
    (lookupA (removeSoundsForEntity eid ctx).implSounds e).getD []
      = (lookupA ctx.implSounds e).getD [] := by
  unfold removeSoundsForEntity
  rw [removeFold_implSounds]
  exact implEnsure_getD _ _ _

theorem removeFold_calls (inner : List (String × NativeId)) (ctx : Ctx) :
    ∃ cs, (inner.foldl (fun c p => removeSoundNative (some p.2) c) ctx).calls
        = ctx.calls ++ cs ∧
      (∀ c ∈ cs, isDestroyCall c = true) ∧
      (∀ p ∈ inner, ApiCall.destroySound p.2 ∈ cs) := by
  induction inner generalizing ctx with
  | nil => exact ⟨[], by simp, by simp, by simp⟩
  | cons p rest ih =>
    rw [List.foldl_cons]
    obtain ⟨cs, hcalls, hdes, hcov⟩ := ih (removeSoundNative (some p.2) ctx)
    refine ⟨[ApiCall.detachObject p.2, ApiCall.destroySound p.2] ++ cs, ?_, ?_, ?_⟩
    · rw [hcalls]
      simp [removeSoundNative, Ctx.emit]
    · intro c hc
      rcases List.mem_append.mp hc with h | h
      · simp only [List.mem_cons, List.not_mem_nil, or_false] at h
        rcases h with h | h <;> (rw [h]; rfl)
      · exact hdes c h
    · intro q hq
      rcases List.mem_cons.mp hq with h | h
      · rw [h]
        exact List.mem_append.mpr (Or.inl (by simp))
      · exact List.mem_append.mpr (Or.inr (hcov q h))

theorem removeSoundsForEntity_calls (eid : EntityId) (ctx : Ctx) :
    ∃ cs, (removeSoundsForEntity eid ctx).calls = ctx.calls ++ cs ∧
      (∀ c ∈ cs, isDestroyCall c = true) ∧
      (∀ p ∈ (lookupA ctx.implSounds eid).getD [],
        ApiCall.destroySound p.2 ∈ cs) := by
  unfold removeSoundsForEntity
  exact removeFold_calls _ _

theorem destroyPhase_calls (ids : List EntityId) (ctx : Ctx) :
    ∃ cs, (destroyPhase ids ctx).calls = ctx.calls ++ cs ∧
      (∀ c ∈ cs, isDestroyCall c = true) ∧
      (∀ eid ∈ ids, ∀ p ∈ (lookupA ctx.implSounds eid).getD [],
        ApiCall.destroySound p.2 ∈ cs) := by
  induction ids generalizing ctx with
  | nil => exact ⟨[], by simp [destroyPhase], by simp, by simp⟩
  | cons eid rest ih =>
    rw [destroyPhase]
    obtain ⟨cs1, h1, hdes1, hcov1⟩ := removeSoundsForEntity_calls eid ctx
    obtain ⟨cs2, h2, hdes2, hcov2⟩ := ih (removeSoundsForEntity eid ctx)
    refine ⟨cs1 ++ cs2, ?_, ?_, ?_⟩
    · rw [h2, h1, List.append_assoc]
    · intro c hc
      rcases List.mem_append.mp hc with h | h
      · exact hdes1 c h
      · exact hdes2 c h
    · intro e he p hp
      rcases List.mem_cons.mp he with h | h
      · subst h
        exact List.mem_append.mpr (Or.inl (hcov1 p hp))
      · refine List.mem_append.mpr (Or.inr (hcov2 e h p ?_))
        rw [removeSoundsForEntity_getD]
        exact hp

/-! ### Shape preservation by the restore phase -/

/-- Two sound entries agree on everything except possibly the native
pointer. -/
def soundShape (a b : String × Sound) : Prop :=
  a.1 = b.1 ∧ a.2.name = b.2.name ∧ a.2.filename = b.2.filename ∧
  a.2.props = b.2.props

/-- Pointwise `soundShape` over two sound collections. -/
def soundsShape (xs ys : List (String × Sound)) : Prop :=
  List.Forall₂ soundShape xs ys

/-- Two entity entries agree on id, scene-node component and sound shapes. -/
def entityShape
    (p q : EntityId × (OgreSceneNodeComponent × SoundSourceComponent)) : Prop :=
  p.1 = q.1 ∧ p.2.1 = q.2.1 ∧ soundsShape p.2.2.m_sounds q.2.2.m_sounds

/-- Pointwise `entityShape` over two entity stores. -/
def storeShape (es fs : EntityStore) : Prop :=
  List.Forall₂ entityShape es fs

theorem soundShape_refl (a : String × Sound) : soundShape a a :=
  ⟨rfl, rfl, rfl, rfl⟩

theorem soundsShape_refl (xs : List (String × Sound)) : soundsShape xs xs := by
  induction xs with
  | nil => exact List.Forall₂.nil
  | cons a rest ih => exact List.Forall₂.cons (soundShape_refl a) ih

theorem soundShape_trans {a b c : String × Sound}
    (h1 : soundShape a b) (h2 : soundShape b c) : soundShape a c :=
  ⟨h1.1.trans h2.1, h1.2.1.trans h2.2.1, h1.2.2.1.trans h2.2.2.1,
    h1.2.2.2.trans h2.2.2.2⟩

theorem soundsShape_trans {xs ys zs : List (String × Sound)}
    (h1 : soundsShape xs ys) (h2 : soundsShape ys zs) : soundsShape xs zs := by
  induction h1 generalizing zs with
  | nil => cases h2; exact List.Forall₂.nil
  | cons hab h ih =>
    cases h2 with
    | cons hbc h' => exact List.Forall₂.cons (soundShape_trans hab hbc) (ih h')

theorem storeShape_refl (es : EntityStore) : storeShape es es := by
  induction es with
  | nil => exact List.Forall₂.nil
  | cons p rest ih =>
    exact List.Forall₂.cons ⟨rfl, rfl, soundsShape_refl _⟩ ih

theorem restoreSound_shape (create : String → String → Bool) (eid : EntityId)
    (scn : OgreSceneNodeComponent) (s : Sound) (ctx : Ctx) :
    (restoreSound create eid scn s ctx).1.name = s.name ∧
    (restoreSound create eid scn s ctx).1.filename = s.filename ∧
    (restoreSound create eid scn s ctx).1.props = s.props := by
  unfold restoreSound
  cases scn.m_sceneNode with
  | none => exact ⟨rfl, rfl, rfl⟩
  | some node =>
    cases hc : create s.name s.filename with
    | true => exact ⟨rfl, rfl, rfl⟩
    | false => exact ⟨rfl, rfl, rfl⟩

theorem restoreSounds_shape (create : String → String → Bool) (eid : EntityId)
    (scn : OgreSceneNodeComponent) (sounds : List (String × Sound)) (ctx : Ctx) :
    soundsShape sounds (restoreSounds create eid scn sounds ctx).1 := by
  induction sounds generalizing ctx with
  | nil => exact List.Forall₂.nil
  | cons p rest ih =>
    obtain ⟨n, s⟩ := p
    rw [restoreSounds]
    obtain ⟨h1, h2, h3⟩ := restoreSound_shape create eid scn s ctx
    exact List.Forall₂.cons ⟨rfl, h1.symm, h2.symm, h3.symm⟩ (ih _)

theorem restoreSound_calls (create : String → String → Bool) (eid : EntityId)
    (scn : OgreSceneNodeComponent) (s : Sound) (ctx : Ctx) :
    ∃ cs, (restoreSound create eid scn s ctx).2.calls = ctx.calls ++ cs ∧
      (∀ c ∈ cs, isRestoreCall c = true) ∧
      (∀ node, scn.m_sceneNode = some node → create s.name s.filename = true →
        ∃ id, ApiCall.createSound s.name s.filename true s.props.loop true (some id)
          ∈ cs) := by
  obtain ⟨sn⟩ := scn
  cases sn with
  | none =>
    refine ⟨[], by simp [restoreSound], by simp, ?_⟩
    intro node hnode
    cases hnode
  | some node =>
    cases hc : create s.name s.filename with
    | true =>
      refine ⟨[ApiCall.createSound s.name s.filename true s.props.loop true
          (some ctx.nextId), ApiCall.attachObject node ctx.nextId], ?_, ?_, ?_⟩
      · simp [restoreSound, hc, Ctx.emit]
      · intro c hcm
        simp only [List.mem_cons, List.not_mem_nil, or_false] at hcm
        rcases hcm with h | h <;> (rw [h]; rfl)
      · intro node' hnode' _
        cases hnode'
        exact ⟨ctx.nextId, List.mem_cons_self _ _⟩
    | false =>
      refine ⟨[ApiCall.createSound s.name s.filename true s.props.loop true none],
        ?_, ?_, ?_⟩
      · simp [restoreSound, hc, Ctx.emit]
      · intro c hcm
        simp only [List.mem_cons, List.not_mem_nil, or_false] at hcm
        rw [hcm]; rfl
      · intro node' hnode' hcr
        cases hcr

theorem restoreSounds_calls (create : String → String → Bool) (eid : EntityId)
    (scn : OgreSceneNodeComponent) (sounds : List (String × Sound)) (ctx : Ctx) :
    ∃ cs, (restoreSounds create eid scn sounds ctx).2.calls = ctx.calls ++ cs ∧
      (∀ c ∈ cs, isRestoreCall c = true) ∧
      (∀ node, scn.m_sceneNode = some node →
        ∀ p ∈ sounds, create p.2.name p.2.filename = true →
          ∃ id, ApiCall.createSound p.2.name p.2.filename true p.2.props.loop true
            (some id) ∈ cs) := by
  induction sounds generalizing ctx with
  | nil => exact ⟨[], by simp [restoreSounds], by simp, by simp⟩
  | cons p rest ih =>
    obtain ⟨n, s⟩ := p
    obtain ⟨cs1, h1, hr1, hcov1⟩ := restoreSound_calls create eid scn s ctx
    obtain ⟨cs2, h2, hr2, hcov2⟩ :=
      ih (restoreSound create eid scn s ctx).2
    refine ⟨cs1 ++ cs2, ?_, ?_, ?_⟩
    · rw [restoreSounds, h2, h1, List.append_assoc]
    · intro c hcm
      rcases List.mem_append.mp hcm with h | h
      · exact hr1 c h
      · exact hr2 c h
    · intro node hnode q hq hcr
      rcases List.mem_cons.mp hq with h | h
      · subst h
        obtain ⟨id, hid⟩ := hcov1 node hnode hcr
        exact ⟨id, List.mem_append.mpr (Or.inl hid)⟩
      · obtain ⟨id, hid⟩ := hcov2 node hnode q h hcr
        exact ⟨id, List.mem_append.mpr (Or.inr hid)⟩

theorem forall2_mem_left {α β : Type} {R : α → β → Prop} {xs : List α}
    {ys : List β} (h : List.Forall₂ R xs ys) :
    ∀ {a}, a ∈ xs → ∃ b, b ∈ ys ∧ R a b := by
  induction h with
  | nil => intro a ha; cases ha
  | cons hr hrest ih =>
    intro a ha
    rcases List.mem_cons.mp ha with h | h
    · subst h; exact ⟨_, List.mem_cons_self _ _, hr⟩
    · obtain ⟨b, hb, hab⟩ := ih h
      exact ⟨b, List.mem_cons_of_mem _ hb, hab⟩

theorem lookupA_storeShape {es fs : EntityStore} (h : storeShape es fs)
    (eid : EntityId) (scn : OgreSceneNodeComponent)
    (comp : SoundSourceComponent)
    (hl : lookupA es eid = some (scn, comp)) :
    ∃ comp', lookupA fs eid = some (scn, comp') ∧
      soundsShape comp.m_sounds comp'.m_sounds := by
  induction h with
  | nil => cases hl
  | cons hpq hrest ih =>
    rename_i p q ps qs
    obtain ⟨pk, pscn, pcomp⟩ := p
    obtain ⟨qk, qscn, qcomp⟩ := q
    obtain ⟨hk, hscn, hsounds⟩ := hpq
    simp only at hk hscn hsounds
    simp only [lookupA] at hl
    by_cases e : pk = eid
    · rw [if_pos e] at hl
      injection hl with hl
      have h1 : pscn = scn := congrArg Prod.fst hl
      have h2 : pcomp = comp := congrArg Prod.snd hl
      refine ⟨qcomp, ?_, ?_⟩
      · have e' : qk = eid := hk ▸ e
        have h3 : qscn = scn := hscn ▸ h1
        simp only [lookupA, if_pos e', h3]
      · rw [← h2]
        exact hsounds
    · rw [if_neg e] at hl
      have e' : ¬ (qk = eid) := fun h' => e (hk.symm ▸ h')
      simp only [lookupA, if_neg e']
      exact ih hl

theorem replaceAt_storeShape {es fs : EntityStore} (h : storeShape es fs)
    (eid : EntityId) (scn : OgreSceneNodeComponent)
    (comp : SoundSourceComponent) (sounds' : List (String × Sound))
    (hl : lookupA fs eid = some (scn, comp))
    (hs : soundsShape comp.m_sounds sounds') :
    storeShape es
      (replaceAt fs eid (scn, { comp with m_sounds := sounds' })) := by
  induction h with
  | nil => exact List.Forall₂.nil
  | cons hpq hrest ih =>
    rename_i p q ps qs
    obtain ⟨pk, pscn, pcomp⟩ := p
    obtain ⟨qk, qscn, qcomp⟩ := q
    obtain ⟨hk, hscn, hsounds⟩ := hpq
    simp only at hk hscn hsounds
    simp only [lookupA] at hl
    by_cases e : qk = eid
    · rw [if_pos e] at hl
      injection hl with hl
      have h1 : qscn = scn := congrArg Prod.fst hl
      have h2 : qcomp = comp := congrArg Prod.snd hl
      simp only [replaceAt, if_pos e]
      refine List.Forall₂.cons ⟨hk.trans e, ?_, ?_⟩ hrest
      · simp only
        rw [hscn, h1]
      · simp only
        refine soundsShape_trans hsounds ?_
        rw [h2]
        exact hs
    · rw [if_neg e] at hl
      simp only [replaceAt, if_neg e]
      exact List.Forall₂.cons ⟨hk, hscn, hsounds⟩ (ih hl)

theorem addedPhase_spec (create : String → String → Bool)
    (ids : List EntityId) (ents₀ : EntityStore) :
    ∀ (cur : EntityStore) (ctx : Ctx), storeShape ents₀ cur →
    ∃ cs, (addedPhase create ids cur ctx).2.calls = ctx.calls ++ cs ∧
      (∀ c ∈ cs, isRestoreCall c = true) ∧
      storeShape ents₀ (addedPhase create ids cur ctx).1 ∧
      (∀ eid ∈ ids, ∀ scn comp₀, lookupA ents₀ eid = some (scn, comp₀) →
        ∀ node, scn.m_sceneNode = some node →
        ∀ p ∈ comp₀.m_sounds, create p.2.name p.2.filename = true →
          ∃ id, ApiCall.createSound p.2.name p.2.filename true p.2.props.loop true
            (some id) ∈ cs) := by
  induction ids with
  | nil =>
    intro cur ctx hshape
    exact ⟨[], by simp [addedPhase], by simp, by simpa [addedPhase] using hshape,
      by simp⟩
  | cons eid rest ih =>
    intro cur ctx hshape
    rw [addedPhase]
    cases hcur : lookupA cur eid with
    | none =>
      obtain ⟨cs, h1, h2, h3, h4⟩ := ih cur ctx hshape
      refine ⟨cs, h1, h2, h3, ?_⟩
      intro e he scn comp₀ hl node hnode p hp hcr
      rcases List.mem_cons.mp he with h | h
      · subst h
        obtain ⟨comp', hl', _⟩ := lookupA_storeShape hshape e scn comp₀ hl
        rw [hcur] at hl'
        cases hl'
      · exact h4 e h scn comp₀ hl node hnode p hp hcr
    | some v =>
      obtain ⟨scn, comp⟩ := v
      obtain ⟨csr, hr1, hr2, hr3⟩ :=
        restoreSounds_calls create eid scn comp.m_sounds ctx
      have hshape' : storeShape ents₀
          (replaceAt cur eid (scn,
            { comp with m_sounds :=
                (restoreSounds create eid scn comp.m_sounds ctx).1 })) :=
        replaceAt_storeShape hshape eid scn comp _ hcur
          (restoreSounds_shape create eid scn comp.m_sounds ctx)
      obtain ⟨cs, h1, h2, h3, h4⟩ :=
        ih _ (restoreSounds create eid scn comp.m_sounds ctx).2 hshape'
      refine ⟨csr ++ cs, ?_, ?_, h3, ?_⟩
      · rw [h1, hr1, List.append_assoc]
      · intro c hcm
        rcases List.mem_append.mp hcm with h | h
        · exact hr2 c h
        · exact h2 c h
      · intro e he scn₀ comp₀ hl node hnode p hp hcr
        rcases List.mem_cons.mp he with h | h
        · subst h
          obtain ⟨comp', hl', hsh⟩ := lookupA_storeShape hshape e scn₀ comp₀ hl
          rw [hcur] at hl'
          injection hl' with hl'
          have hscn : scn = scn₀ := congrArg Prod.fst hl'
          have hcomp : comp = comp' := congrArg Prod.snd hl'
          subst hscn
          rw [← hcomp] at hsh
          obtain ⟨q, hq, hq1, hq2, hq3, hq4⟩ := forall2_mem_left hsh hp
          have hcr' : create q.2.name q.2.filename = true := by
            rw [← hq2, ← hq3]; exact hcr
          obtain ⟨id, hid⟩ := hr3 node hnode q hq hcr'
          refine ⟨id, List.mem_append.mpr (Or.inl ?_)⟩
          rw [← hq2, ← hq3, ← hq4] at hid
          exact hid
        · obtain ⟨id, hid⟩ := h4 e h scn₀ comp₀ hl node hnode p hp hcr
          exact ⟨id, List.mem_append.mpr (Or.inr hid)⟩

/-! ### The property-sync phase -/

/-- After a successful sync pass, output entry `b` corresponds to input
entry `a`: same name key, its dirty flag is clear, and if `a` had pending
changes then `b` holds a native id to which all of `a`'s property values
and play state were pushed (the calls appear in the trace `calls`). -/
def soundSynced (calls : List ApiCall) (a b : String × Sound) : Prop :=
  a.1 = b.1 ∧ b.2.props.hasChanges = false ∧
  (a.2.props.hasChanges = true →
    ∃ id, b.2.m_sound = some id ∧ ∀ c ∈ syncCalls id a.2.props, c ∈ calls)

/-- Pointwise `soundSynced` between an input entity entry and its output. -/
def entitySynced (calls : List ApiCall)
    (p q : EntityId × (OgreSceneNodeComponent × SoundSourceComponent)) : Prop :=
  p.1 = q.1 ∧ List.Forall₂ (soundSynced calls) p.2.2.m_sounds q.2.2.m_sounds

theorem soundSynced_mono {calls calls' : List ApiCall}
    (hsub : ∀ c ∈ calls, c ∈ calls') {a b : String × Sound}
    (h : soundSynced calls a b) : soundSynced calls' a b := by
  obtain ⟨h1, h2, h3⟩ := h
  refine ⟨h1, h2, ?_⟩
  intro hch
  obtain ⟨id, hid, hmem⟩ := h3 hch
  exact ⟨id, hid, fun c hc => hsub c (hmem c hc)⟩

theorem syncSound_ok_spec (create : String → String → Bool) (eid : EntityId)
    (scn : OgreSceneNodeComponent) (s : Sound) (ctx : Ctx) (s' : Sound)
    (ctx' : Ctx) (h : syncSound create eid scn s ctx = Except.ok (s', ctx')) :
    (∃ cs, ctx'.calls = ctx.calls ++ cs) ∧
    s'.props.hasChanges = false ∧
    (s.props.hasChanges = true →
      ∃ id, s'.m_sound = some id ∧ ∀ c ∈ syncCalls id s.props, c ∈ ctx'.calls) := by
  unfold syncSound at h
  cases hms : s.m_sound with
  | some id₀ =>
    simp only [hms, Option.isNone_some, Bool.false_eq_true, if_false] at h
    cases hch : s.props.hasChanges with
    | false =>
      rw [hch] at h
      simp only [Bool.false_eq_true, if_false, Except.ok.injEq] at h
      obtain ⟨h1, h2⟩ : s = s' ∧ ctx = ctx' := ⟨congrArg Prod.fst h, congrArg Prod.snd h⟩
      subst h1
      subst h2
      refine ⟨⟨[], by simp⟩, ?_, ?_⟩
      · exact hch
      · intro hcontra
        cases hcontra
    | true =>
      rw [hch] at h
      simp only [if_true, hms, Except.ok.injEq] at h
      obtain ⟨h1, h2⟩ : _ ∧ _ := ⟨congrArg Prod.fst h, congrArg Prod.snd h⟩
      simp only at h1 h2
      subst h1
      subst h2
      refine ⟨⟨syncCalls id₀ s.props, rfl⟩, rfl, ?_⟩
      intro _
      refine ⟨id₀, rfl, ?_⟩
      intro c hc
      exact List.mem_append.mpr (Or.inr hc)
  | none =>
    simp only [hms, Option.isNone_none, if_true] at h
    have hprops := (restoreSound_shape create eid scn s ctx).2.2
    obtain ⟨cs0, hcs0, _, _⟩ := restoreSound_calls create eid scn s ctx
    cases hch : s.props.hasChanges with
    | false =>
      rw [hprops, hch] at h
      simp only [Bool.false_eq_true, if_false, Except.ok.injEq] at h
      obtain ⟨h1, h2⟩ : _ ∧ _ := ⟨congrArg Prod.fst h, congrArg Prod.snd h⟩
      simp only at h1 h2
      subst h1
      subst h2
      refine ⟨⟨cs0, hcs0⟩, ?_, ?_⟩
      · rw [hprops]; exact hch
      · intro hcontra
        cases hcontra
    | true =>
      rw [hprops, hch] at h
      simp only [if_true] at h
      cases hrm : (restoreSound create eid scn s ctx).1.m_sound with
      | none =>
        rw [hrm] at h
        cases h
      | some id =>
        rw [hrm] at h
        simp only [Except.ok.injEq] at h
        obtain ⟨h1, h2⟩ : _ ∧ _ := ⟨congrArg Prod.fst h, congrArg Prod.snd h⟩
        simp only at h1 h2
        subst h1
        subst h2
        refine ⟨⟨cs0 ++ syncCalls id s.props,
          by simp only [Ctx.emit]; rw [hcs0, List.append_assoc]⟩, rfl, ?_⟩
        intro _
        refine ⟨id, rfl, ?_⟩
        intro c hc
        simp only [Ctx.emit]
        exact List.mem_append.mpr (Or.inr hc)

theorem syncSounds_ok (create : String → String → Bool) (eid : EntityId)
    (scn : OgreSceneNodeComponent) :
    ∀ (sounds : List (String × Sound)) (ctx : Ctx)
      (res : List (String × Sound) × Ctx),
    syncSounds create eid scn sounds ctx = Except.ok res →
    (∃ cs, res.2.calls = ctx.calls ++ cs) ∧
    List.Forall₂ (soundSynced res.2.calls) sounds res.1 := by
  intro sounds
  induction sounds with
  | nil =>
    intro ctx res h
    rw [syncSounds] at h
    simp only [Except.ok.injEq] at h
    subst h
    exact ⟨⟨[], by simp⟩, List.Forall₂.nil⟩
  | cons p rest ih =>
    intro ctx res h
    obtain ⟨n, s⟩ := p
    rw [syncSounds] at h
    split at h
    · cases h
    · rename_i s₁ ctx₁ hsync
      split at h
      · cases h
      · rename_i rest' ctx₂ hrest
        simp only [Except.ok.injEq] at h
        subst h
        obtain ⟨⟨cs1, hcs1⟩, hclear, hdirty⟩ :=
          syncSound_ok_spec create eid scn s ctx s₁ ctx₁ hsync
        obtain ⟨⟨cs2, hcs2⟩, hforall⟩ := ih ctx₁ (rest', ctx₂) hrest
        refine ⟨⟨cs1 ++ cs2, by rw [hcs2, hcs1, List.append_assoc]⟩, ?_⟩
        refine List.Forall₂.cons ⟨rfl, hclear, ?_⟩ hforall
        intro hch
        obtain ⟨id, hid, hmem⟩ := hdirty hch
        refine ⟨id, hid, ?_⟩
        intro c hc
        rw [hcs2]
        exact List.mem_append.mpr (Or.inl (hmem c hc))

theorem syncEntities_ok (create : String → String → Bool) :
    ∀ (es : EntityStore) (ctx : Ctx) (res : EntityStore × Ctx),
    syncEntities create es ctx = Except.ok res →
    (∃ cs, res.2.calls = ctx.calls ++ cs) ∧
    List.Forall₂ (entitySynced res.2.calls) es res.1 := by
  intro es
  induction es with
  | nil =>
    intro ctx res h
    rw [syncEntities] at h
    simp only [Except.ok.injEq] at h
    subst h
    exact ⟨⟨[], by simp⟩, List.Forall₂.nil⟩
  | cons p rest ih =>
    intro ctx res h
    obtain ⟨eid, scn, comp⟩ := p
    rw [syncEntities] at h
    split at h
    · cases h
    · rename_i sounds' ctx₁ hsync
      split at h
      · cases h
      · rename_i rest' ctx₂ hrest
        simp only [Except.ok.injEq] at h
        subst h
        obtain ⟨⟨cs1, hcs1⟩, hforall1⟩ :=
          syncSounds_ok create eid scn comp.m_sounds ctx (sounds', ctx₁) hsync
        obtain ⟨⟨cs2, hcs2⟩, hforall2⟩ := ih ctx₁ (rest', ctx₂) hrest
        refine ⟨⟨cs1 ++ cs2, by rw [hcs2, hcs1, List.append_assoc]⟩, ?_⟩
        refine List.Forall₂.cons ⟨rfl, ?_⟩ hforall2
        refine hforall1.imp ?_
        intro a b hab
        refine soundSynced_mono ?_ hab
        intro c hc
        rw [hcs2]
        exact List.mem_append.mpr (Or.inl hc)

theorem forall2_comp {α β γ : Type} {R : α → β → Prop} {S : β → γ → Prop}
    {T : α → γ → Prop} (hcomp : ∀ a b c, R a b → S b c → T a c) :
    ∀ {xs : List α} {ys : List β} {zs : List γ},
      List.Forall₂ R xs ys → List.Forall₂ S ys zs → List.Forall₂ T xs zs := by
  intro xs ys zs h1
  induction h1 generalizing zs with
  | nil => intro h2; cases h2; exact List.Forall₂.nil
  | cons hr hrest ih =>
    intro h2
    cases h2 with
    | cons hs hrest2 => exact List.Forall₂.cons (hcomp _ _ _ hr hs) (ih hrest2)

theorem soundShape_synced_comp (calls : List ApiCall) (a b c : String × Sound)
    (h1 : soundShape a b) (h2 : soundSynced calls b c) :
    soundSynced calls a c := by
  obtain ⟨e1, e2, e3, e4⟩ := h1
  obtain ⟨f1, f2, f3⟩ := h2
  refine ⟨e1.trans f1, f2, ?_⟩
  intro hch
  have hb : b.2.props.hasChanges = true := by rw [← e4]; exact hch
  obtain ⟨id, hid, hmem⟩ := f3 hb
  refine ⟨id, hid, ?_⟩
  intro c' hc'
  apply hmem
  rw [e4] at hc'
  exact hc'

theorem entityShape_synced_comp (calls : List ApiCall)
    (p q r : EntityId × (OgreSceneNodeComponent × SoundSourceComponent))
    (h1 : entityShape p q) (h2 : entitySynced calls q r) :
    entitySynced calls p r := by
  obtain ⟨e1, _, e3⟩ := h1
  obtain ⟨f1, f2⟩ := h2
  exact ⟨e1.trans f1, forall2_comp (soundShape_synced_comp calls) e3 f2⟩

/-- C2: whenever `update()` returns normally, every tracked sound's dirty
flag is clear afterwards, and every tracked sound that had pending changes
had its volume, maxDistance, rolloffFactor, referenceDistance, priority
and play state pushed to its native sound object (the corresponding
external calls appear in the final trace, addressed to the native id the
sound ends up holding). -/
theorem C2_dirty_flag_sync (create : String → String → Bool) (w w' : World)
    (h : update create w = Except.ok w') :
    List.Forall₂ (entitySynced w'.ctx.calls) w.entities w'.entities := by
  simp only [update] at h
  split at h
  · cases h
  · rename_i ents' ctx' heq
    simp only [Except.ok.injEq] at h
    subst h
    obtain ⟨cs2, _, _, hshape, _⟩ :=
      addedPhase_spec create w.addedIds w.entities w.entities
        (destroyPhase w.removedIds w.ctx) (storeShape_refl w.entities)
    obtain ⟨⟨cs3, hcs3⟩, hsynced⟩ :=
      syncEntities_ok create
        (addedPhase create w.addedIds w.entities
          (destroyPhase w.removedIds w.ctx)).1
        (addedPhase create w.addedIds w.entities
          (destroyPhase w.removedIds w.ctx)).2
        (ents', ctx') heq
    exact forall2_comp (entityShape_synced_comp ctx'.calls) hshape hsynced

/-- Tracked dirty sound on an entity with a live scene node, for the C2
witness run. -/
def c2world : World :=
  { entities := [(1, (⟨some 4⟩,
      { compDefault with m_sounds := [("a", (Sound.mkNew "a" "f").play)] }))] }

/-- The world produced by the C2 witness run. -/
def c2result : World :=
  (update (fun _ _ => true) c2world).toOption.getD {}

theorem C2_dirty_flag_sync_witness :
    update (fun _ _ => true) c2world = Except.ok c2result ∧
    List.Forall₂ (entitySynced c2result.ctx.calls) c2world.entities
      c2result.entities :=
  ⟨rfl, C2_dirty_flag_sync (fun _ _ => true) c2world c2result rfl⟩

/-- World whose single entity is newly added but has a null scene node:
`update` succeeds without creating any native sound for its descriptor. -/
def c6bad : World :=
  { entities := [(0, (⟨none⟩,
      { compDefault with m_sounds := [("a", Sound.mkNew "a" "f")] }))],
    addedIds := [0] }

/-- C6 (counterexample): entity 0 is newly added to the filter and owns the
sound descriptor ("a", "f"), yet `update()` (with a native manager that
would succeed) makes no external call at all — the final context is empty,
so no native sound object was created for the added entity's descriptor:
the scene node is null, so restoration was skipped. -/
theorem C6_lifecycle_counterexample :
    c6bad.addedIds = [0] ∧
    lookupA c6bad.entities 0 = some (⟨none⟩,
      { compDefault with m_sounds := [("a", Sound.mkNew "a" "f")] }) ∧
    update (fun _ _ => true) c6bad =
      Except.ok { entities := c6bad.entities, addedIds := [],
                  removedIds := [], ctx := {} } :=
  ⟨rfl, rfl, rfl⟩

/-- C6 (amended): whenever `update()` returns normally, its external trace
decomposes as destroy segment, then restore segment, then the rest: the
destroy segment holds only detach/destroy calls and destroys every native
sound recorded for every removed entity; the restore segment holds only
create/attach calls and contains a successful creation for every sound
descriptor of every newly added entity whose scene node is non-null and
whose native creation succeeds; all property-change processing comes
after. -/
theorem C6_lifecycle_mirroring (create : String → String → Bool)
    (w w' : World) (h : update create w = Except.ok w') :
    ∃ cs1 cs2 cs3,
      w'.ctx.calls = w.ctx.calls ++ cs1 ++ cs2 ++ cs3 ∧
      (∀ c ∈ cs1, isDestroyCall c = true) ∧
      (∀ eid ∈ w.removedIds, ∀ p ∈ (lookupA w.ctx.implSounds eid).getD [],
        ApiCall.destroySound p.2 ∈ cs1) ∧
      (∀ c ∈ cs2, isRestoreCall c = true) ∧
      (∀ eid ∈ w.addedIds, ∀ scn comp,
        lookupA w.entities eid = some (scn, comp) →
        ∀ node, scn.m_sceneNode = some node →
        ∀ p ∈ comp.m_sounds, create p.2.name p.2.filename = true →
          ∃ id, ApiCall.createSound p.2.name p.2.filename true p.2.props.loop true
            (some id) ∈ cs2) := by
  simp only [update] at h
  split at h
  · cases h
  · rename_i ents' ctx' heq
    simp only [Except.ok.injEq] at h
    subst h
    obtain ⟨cs1, hd1, hd2, hd3⟩ := destroyPhase_calls w.removedIds w.ctx
    obtain ⟨cs2, ha1, ha2, _, ha4⟩ :=
      addedPhase_spec create w.addedIds w.entities w.entities
        (destroyPhase w.removedIds w.ctx) (storeShape_refl w.entities)
    obtain ⟨⟨cs3, hcs3⟩, _⟩ :=
      syncEntities_ok create
        (addedPhase create w.addedIds w.entities
          (destroyPhase w.removedIds w.ctx)).1
        (addedPhase create w.addedIds w.entities
          (destroyPhase w.removedIds w.ctx)).2
        (ents', ctx') heq
    refine ⟨cs1, cs2, cs3, ?_, hd2, hd3, ha2, ha4⟩
    rw [hcs3, ha1, hd1]

/-- World with one removed entity owning a recorded native sound and one
newly added entity with a live scene node, for the C6 witness run. -/
def c6wit : World :=
  { entities := [(2, (⟨some 9⟩,
      { compDefault with m_sounds := [("b", Sound.mkNew "b" "g")] }))],
    addedIds := [2],
    removedIds := [3],
    ctx := { implSounds := [(3, [("old", 5)])] } }

/-- The world produced by the C6 witness run. -/
def c6witResult : World :=
  (update (fun _ _ => true) c6wit).toOption.getD {}

theorem C6_lifecycle_mirroring_witness :
    update (fun _ _ => true) c6wit = Except.ok c6witResult ∧
    (∃ cs1 cs2 cs3,
      c6witResult.ctx.calls = c6wit.ctx.calls ++ cs1 ++ cs2 ++ cs3 ∧
      (∀ c ∈ cs1, isDestroyCall c = true) ∧
      (∀ eid ∈ c6wit.removedIds, ∀ p ∈ (lookupA c6wit.ctx.implSounds eid).getD [],
        ApiCall.destroySound p.2 ∈ cs1) ∧
      (∀ c ∈ cs2, isRestoreCall c = true) ∧
      (∀ eid ∈ c6wit.addedIds, ∀ scn comp,
        lookupA c6wit.entities eid = some (scn, comp) →
        ∀ node, scn.m_sceneNode = some node →
        ∀ p ∈ comp.m_sounds, (fun _ _ => true : String → String → Bool)
            p.2.name p.2.filename = true →
          ∃ id, ApiCall.createSound p.2.name p.2.filename true p.2.props.loop true
            (some id) ∈ cs2)) :=
  ⟨rfl, C6_lifecycle_mirroring (fun _ _ => true) c6wit c6witResult rfl⟩

/-- World with one tracked entity whose scene node is null and whose single
sound has pending property changes and no native sound: the state reached
by adding the components, calling `addSound` then `play()`, and letting one
frame pass with the scene node still unset. -/
def c8world : World :=
  { entities := [(0, (⟨none⟩,
      { compDefault with
        m_sounds := [("a", (Sound.mkNew "a" "f").play)] }))] }

/-- C8 (code bug): on `c8world` the `hasChanges` branch of `update()`
dereferences `sound->m_sound` while it is still null — `restoreSound`
returned without setting it because the scene node is null — so the update
crashes (modelled as `Except.error`). -/
theorem C8_null_deref :
    update (fun _ _ => true) c8world = Except.error () := rfl

end thrive
